import Mathlib

/-!
Shallow embedding of the `queue-sim` discrete-event queueing simulator.

Times, service requirements and probabilities are embedded as rationals
(`ℚ`); the Python value `math.inf` used for an idle station's TTNC is
embedded as `none : Option ℚ`.  Pseudo-random sampling is embedded by
threading an abstract generator state (`Nat`) through sampler functions
supplied as parameters, matching the source's contract that samplers are
pure functions of the PRNG state.

Sources embedded:
  - `queue_sim/server.py`            (base `Server`, used by FCFS k=1)
  - `queue_sim/policies/FCFS.py`     (k=1 delegates to base; k>1 channel code)
  - `queue_sim/policies/PS.py`
  - `queue_sim/policies/FB.py`
  - `queue_sim/policies/SRPT.py`
  - `queue_sim/queueSystem.py`       (validation, routing, sim main loop)
  - `queue_sim/results.py`           (SplitMix64 seed derivation)
-/

namespace QueueSim

set_option maxHeartbeats 4000000

/-- Times and probabilities are rationals in the embedding. -/
abbrev Time := ℚ

/-- Executable absolute value on `ℚ` (kernel-reducible, unlike the
lattice-derived `abs`). -/
def rabs (q : ℚ) : ℚ := if q < 0 then -q else q

/-- Executable binary minimum on `ℚ` (Python `min`). -/
def rmin (a b : ℚ) : ℚ := if a ≤ b then a else b

/-- Executable binary maximum on `ℚ` (Python `max`). -/
def rmax (a b : ℚ) : ℚ := if b ≤ a then a else b

/-- `math.inf` is embedded as `none`; `some t` is a finite float value.
`oSub o d` is `o - d` (infinity minus a finite value stays infinity). -/
def oSub (o : Option Time) (d : Time) : Option Time :=
  o.map (fun t => t - d)

/-- The Python test `ttnc <= 0.0` (false for `inf`). -/
def oLeZero : Option Time → Bool
  | none => false
  | some t => decide (t ≤ 0)

/-- Minimum of two extended times (`none` = +∞). -/
def oMin : Option Time → Option Time → Option Time
  | none, b => b
  | some a, none => some a
  | some a, some b => some (rmin a b)

/-- `min` over a possibly empty list of floats (`none` when the list is
empty, where Python's `min` would raise). -/
def qMin : List Time → Option Time
  | [] => none
  | x :: xs => some (xs.foldl rmin x)

/-- Fold step for a running minimum that starts at `math.inf`. -/
def oMinAcc (o : Option Time) (x : Time) : Option Time :=
  match o with
  | none => some x
  | some a => some (rmin a x)

/-! ### Policy-local mutable containers

One constructor per concrete policy class.  `base` is the state of the
abstract `Server` base class, which is what `FCFS` with `num_servers = 1`
(and `MultiServer`) executes; `fcfsk` is the `num_servers > 1` branch of
`FCFS`. -/

inductive PolState where
  /-- `Server.arrivalTimes` deque. -/
  | base (arrivalTimes : List Time)
  /-- `FCFS` k>1: channels hold `(remaining, arrival_time)`; `waitQueue`
  holds arrival times of jobs not yet assigned a channel. -/
  | fcfsk (channels : List (Time × Time)) (waitQueue : List Time)
  /-- `PS.remaining` and `PS.jobArrivals`, parallel lists. -/
  | ps (remaining : List Time) (jobArrivals : List Time)
  /-- `FB.jobs`: each job is `(remaining, attained, arrival_time)`. -/
  | fb (jobs : List (Time × Time × Time))
  /-- `SRPT.jobs` heap entries `(remaining, arrival_time)` plus
  `_running_arrival_time`. -/
  | srpt (jobs : List (Time × Time)) (runningArrival : Time)
deriving DecidableEq

/-- The full per-station record: the configuration attributes set by
`Server.__init__` (`num_servers`, `buffer_capacity`) together with the
mutable state set by `Server._init_state` and the policy containers.
`last_response_time` embeds the `_last_response_time` attribute, which in
the source is only ever assigned by `SRPT.updateET`; `none` means the
attribute does not exist (reading it raises `AttributeError`). -/
structure ServerSt where
  num_servers : Nat
  buffer_capacity : Option Nat
  clock : Time
  TTNC : Option Time
  T : Time
  num_completions : Nat
  state : Int
  num_rejected : Nat
  num_arrivals : Nat
  last_response_time : Option Time
  pol : PolState
deriving DecidableEq

instance : Inhabited ServerSt :=
  ⟨⟨1, none, 0, none, 0, 0, 0, 0, 0, none, PolState.base []⟩⟩

/-- `Server.reset` / `_init_state` plus each policy's `reset` override:
configuration is kept, every mutable field returns to its initial value and
the policy containers are emptied.  (`_last_response_time` is only ever
read by the engine immediately after the completing `update` call that
wrote it, so clearing it here is observationally equivalent to the
source's attribute that survives `reset`.) -/
def resetServer (s : ServerSt) : ServerSt :=
  { num_servers := s.num_servers
    buffer_capacity := s.buffer_capacity
    clock := 0
    TTNC := none
    T := 0
    num_completions := 0
    state := 0
    num_rejected := 0
    num_arrivals := 0
    last_response_time := none
    pol :=
      match s.pol with
      | PolState.base _ => PolState.base []
      | PolState.fcfsk _ _ => PolState.fcfsk [] []
      | PolState.ps _ _ => PolState.ps [] []
      | PolState.fb _ => PolState.fb []
      | PolState.srpt _ _ => PolState.srpt [] 0 }

/-- `Server.is_full`. -/
def isFull (s : ServerSt) : Bool :=
  match s.buffer_capacity with
  | none => false
  | some c => decide ((c : Int) ≤ s.state)

/-- The sampler bundle: `seedFn` models `random.seed`, `arrival` the
system's inter-arrival sampler, `size i` station `i`'s service-size
sampler, `uniform` a `random.random()` draw.  All consume and return the
abstract generator state. -/
structure Samplers where
  seedFn : Nat → Nat
  arrival : Nat → Time × Nat
  size : Nat → Nat → Time × Nat
  uniform : Nat → Time × Nat

/-! ### SRPT heap model

Python's `heapq` stores `(remaining, arrival_time)` tuples compared
lexicographically.  Its observable behaviour on a well-formed heap is:
`heappush` adds an entry, `heappop` removes and returns a minimal tuple.
We model the container as a list, `heappush` as appending, and `heappop`
as removing the first occurrence of the lexicographic minimum; entries
tied on both components are equal as values, so this is observationally
the same container. -/

/-- Python tuple comparison `<` on `(remaining, arrival_time)`. -/
def pairLtB (a b : Time × Time) : Bool :=
  decide (a.1 < b.1) || (decide (a.1 = b.1) && decide (a.2 < b.2))

/-- Lexicographic minimum of a list of pairs (first occurrence wins ties). -/
def lexMin : List (Time × Time) → Option (Time × Time)
  | [] => none
  | x :: xs => some (xs.foldl (fun m y => if pairLtB y m then y else m) x)

/-- `heapq.heappop`: remove and return the smallest tuple.  On an empty
heap (where Python raises `IndexError`, unreachable in engine-produced
states) we return a junk value and leave the list unchanged. -/
def popMin (l : List (Time × Time)) : (Time × Time) × List (Time × Time) :=
  match lexMin l with
  | none => ((0, 0), l)
  | some m => (m, l.erase m)

/-! ### Per-policy TTNC recomputation -/

/-- `FCFS._recalc_ttnc` (k>1): minimum remaining across channels. -/
def fcfskRecalc (channels : List (Time × Time)) : Option Time :=
  qMin (channels.map Prod.fst)

/-- `PS._recalc_ttnc`: `min(remaining) * state / min(num_servers, state)`. -/
def psRecalc (remaining : List Time) (state : Int) (k : Nat) : Option Time :=
  match qMin remaining with
  | none => none
  | some m => some (m * (state : ℚ) / rmin (k : ℚ) (state : ℚ))

/-- The numerical tolerance `1e-12` used by FB for attained-service ties
and for the completion test. -/
def fbEps : ℚ := 1 / 10 ^ 12

/-- `FB._recalc_ttnc`: one pass accumulating the active-set size, the
minimum remaining among active jobs, and the next higher attained level,
then `TTNC = min(min_rem_active * num_active, (next_level - min_att) * num_active)`
(the `math.inf` starting values are embedded as `none`). -/
def fbRecalc (jobs : List (Time × Time × Time)) : Option Time :=
  match qMin (jobs.map (fun j => j.2.1)) with
  | none => none
  | some minAtt =>
    let acc := jobs.foldl
      (fun (a : Nat × Option Time × Option Time) j =>
        if j.2.1 ≤ minAtt + fbEps then
          (a.1 + 1, oMinAcc a.2.1 j.1, a.2.2)
        else
          (a.1, a.2.1, oMinAcc a.2.2 j.2.1))
      (0, none, none)
    let ttc : Option Time := (acc.2.1).map (fun r => r * ((acc.1 : ℚ)))
    let cross : Option Time := (acc.2.2).map (fun nl => (nl - minAtt) * ((acc.1 : ℚ)))
    oMin ttc cross

/-- The debit step of `FB.update`: jobs whose attained service is within
`1e-12` of the minimum form the active set; each receives `dt / num_active`
on both `remaining` and `attained` (membership evaluated on the attained
values from before the debit, as in the source's precomputed index list). -/
def fbDebit (jobs : List (Time × Time × Time)) (dt : Time) : List (Time × Time × Time) :=
  match qMin (jobs.map (fun j => j.2.1)) with
  | none => jobs
  | some minAtt =>
    let numActive := (jobs.filter (fun j => decide (j.2.1 ≤ minAtt + fbEps))).length
    let work := dt / (numActive : ℚ)
    jobs.map (fun j =>
      if j.2.1 ≤ minAtt + fbEps then (j.1 - work, j.2.1 + work, j.2.2) else j)

/-- The completion scan in `FB.update`: index of the first job whose
remaining work is within the `1e-12` tolerance. -/
def findRemIdx : List (Time × Time × Time) → Option Nat
  | [] => none
  | j :: rest => if j.1 ≤ fbEps then some 0 else (findRemIdx rest).map (· + 1)

/-- `min(range(len(l)), key=lambda i: l[i])`: the first index attaining the
minimum (0 for an empty list, where Python raises). -/
def argminIdx (l : List Time) : Nat :=
  match l with
  | [] => 0
  | x :: xs =>
    (xs.foldl
      (fun (a : Nat × Time × Nat) y =>
        if y < a.2.1 then (a.2.2, y, a.2.2 + 1) else (a.1, a.2.1, a.2.2 + 1))
      (0, x, 1)).1

/-! ### `arrival()` and `update(dt)` -/

/-- `arrival()` dispatched on the policy class, with drawn service sizes
threaded through the generator state; `i` is the station index selecting
its size sampler. -/
def serverArrival (sam : Samplers) (i : Nat) (s : ServerSt) (rng : Nat) :
    ServerSt × Nat :=
  match s.pol with
  | PolState.base ats =>
      -- Server.arrival: append the local clock; if idle, draw a fresh TTNC
      let ats1 := ats ++ [s.clock]
      if s.state = 0 then
        ({ s with pol := PolState.base ats1, TTNC := some (sam.size i rng).1,
                  state := s.state + 1 }, (sam.size i rng).2)
      else
        ({ s with pol := PolState.base ats1, state := s.state + 1 }, rng)
  | PolState.fcfsk ch wq =>
      -- FCFS.arrival, k>1 branch: enter a free channel or join the wait queue
      if ch.length < s.num_servers then
        let ch1 := ch ++ [((sam.size i rng).1, s.clock)]
        ({ s with pol := PolState.fcfsk ch1 wq, state := s.state + 1,
                  TTNC := fcfskRecalc ch1 }, (sam.size i rng).2)
      else
        ({ s with pol := PolState.fcfsk ch (wq ++ [s.clock]),
                  state := s.state + 1 }, rng)
  | PolState.ps rem ja =>
      let rem1 := rem ++ [(sam.size i rng).1]
      let st1 := s.state + 1
      ({ s with pol := PolState.ps rem1 (ja ++ [s.clock]), state := st1,
                TTNC := psRecalc rem1 st1 s.num_servers }, (sam.size i rng).2)
  | PolState.fb jobs =>
      let jobs1 := jobs ++ [((sam.size i rng).1, 0, s.clock)]
      ({ s with pol := PolState.fb jobs1, state := s.state + 1,
                TTNC := fbRecalc jobs1 }, (sam.size i rng).2)
  | PolState.srpt jobs ra =>
      -- SRPT.arrival: push the running job back (if any), push the new job,
      -- pop the minimum as the new running job.  When `state > 0` the
      -- running TTNC is a finite float in every reachable state; `getD 0`
      -- stands for that finite value.
      let jobs1 := if 0 < s.state then jobs ++ [(s.TTNC.getD 0, ra)] else jobs
      let pm := popMin (jobs1 ++ [((sam.size i rng).1, s.clock)])
      ({ s with pol := PolState.srpt pm.2 pm.1.2, state := s.state + 1,
                TTNC := some pm.1.1 }, (sam.size i rng).2)

/-- `update(time_elapsed)` dispatched on the policy class.  Returns
`((completed, updated server), rng)`. -/
def serverUpdate (sam : Samplers) (i : Nat) (s : ServerSt) (dt : Time) (rng : Nat) :
    (Bool × ServerSt) × Nat :=
  match s.pol with
  | PolState.base ats =>
      let ttnc1 := oSub s.TTNC dt
      let clock1 := s.clock + dt
      if oLeZero ttnc1 then
        let st1 := s.state - 1
        let tr : Option Time × Nat :=
          if 0 < st1 then (some (sam.size i rng).1, (sam.size i rng).2)
          else (none, rng)
        let nc1 := s.num_completions + 1
        -- Server.updateET: pop the oldest arrival time, update the running
        -- mean (`headD 0`/`tail` agree with the deque whenever it is
        -- non-empty, which holds in every engine-reachable state)
        let t := clock1 - ats.headD 0
        let T1 := s.T * ((nc1 : ℚ) - 1) / (nc1 : ℚ) + t / (nc1 : ℚ)
        ((true, { s with pol := PolState.base ats.tail, clock := clock1,
                         TTNC := tr.1, state := st1, num_completions := nc1,
                         T := T1 }), tr.2)
      else
        ((false, { s with clock := clock1, TTNC := ttnc1 }), rng)
  | PolState.fcfsk ch wq =>
      let clock1 := s.clock + dt
      let ch1 := ch.map (fun c => (c.1 - dt, c.2))
      let ttnc1 := oSub s.TTNC dt
      if oLeZero ttnc1 then
        let idx := argminIdx (ch1.map Prod.fst)
        let chosen := ch1.getD idx (0, 0)
        let resp := clock1 - chosen.2
        let nc1 := s.num_completions + 1
        let T1 := s.T * ((nc1 : ℚ) - 1) / (nc1 : ℚ) + resp / (nc1 : ℚ)
        let ch2 := ch1.eraseIdx idx
        let st1 := s.state - 1
        match wq with
        | [] =>
            ((true, { s with pol := PolState.fcfsk ch2 [], clock := clock1,
                             num_completions := nc1, T := T1, state := st1,
                             TTNC := fcfskRecalc ch2 }), rng)
        | a :: rest =>
            -- promotion from the wait queue (note the source's `state += 1`)
            let ch3 := ch2 ++ [((sam.size i rng).1, a)]
            ((true, { s with pol := PolState.fcfsk ch3 rest, clock := clock1,
                             num_completions := nc1, T := T1, state := st1 + 1,
                             TTNC := fcfskRecalc ch3 }), (sam.size i rng).2)
      else
        ((false, { s with pol := PolState.fcfsk ch1 wq, clock := clock1,
                          TTNC := ttnc1 }), rng)
  | PolState.ps rem ja =>
      let ttnc1 := oSub s.TTNC dt
      let clock1 := s.clock + dt
      if s.state = 0 then
        ((false, { s with TTNC := ttnc1, clock := clock1 }), rng)
      else
        let work := dt * rmin (s.num_servers : ℚ) ((s.state : ℚ)) / ((s.state : ℚ))
        let rem1 := rem.map (fun r => r - work)
        if oLeZero ttnc1 then
          let idx := argminIdx rem1
          let resp := clock1 - ja.getD idx 0
          let rem2 := rem1.eraseIdx idx
          let ja2 := ja.eraseIdx idx
          let st1 := s.state - 1
          let nc1 := s.num_completions + 1
          let T1 := s.T * ((nc1 : ℚ) - 1) / (nc1 : ℚ) + resp / (nc1 : ℚ)
          ((true, { s with pol := PolState.ps rem2 ja2, clock := clock1,
                           state := st1, num_completions := nc1, T := T1,
                           TTNC := psRecalc rem2 st1 s.num_servers }), rng)
        else
          ((false, { s with pol := PolState.ps rem1 ja, clock := clock1,
                            TTNC := ttnc1 }), rng)
  | PolState.fb jobs =>
      let ttnc1 := oSub s.TTNC dt
      let clock1 := s.clock + dt
      match jobs with
      | [] => ((false, { s with TTNC := ttnc1, clock := clock1 }), rng)
      | _ :: _ =>
        let jobs1 := fbDebit jobs dt
        if oLeZero ttnc1 then
          -- check for a completed job (remaining within tolerance) first
          match findRemIdx jobs1 with
          | some idx =>
              let j := jobs1.getD idx (0, 0, 0)
              let resp := clock1 - j.2.2
              let jobs2 := jobs1.eraseIdx idx
              let st1 := s.state - 1
              let nc1 := s.num_completions + 1
              let T1 := s.T * ((nc1 : ℚ) - 1) / (nc1 : ℚ) + resp / (nc1 : ℚ)
              ((true, { s with pol := PolState.fb jobs2, clock := clock1,
                               state := st1, num_completions := nc1, T := T1,
                               TTNC := fbRecalc jobs2 }), rng)
          | none =>
              -- level crossing: recalculate, no completion is counted
              ((false, { s with pol := PolState.fb jobs1, clock := clock1,
                                TTNC := fbRecalc jobs1 }), rng)
        else
          ((false, { s with pol := PolState.fb jobs1, clock := clock1,
                            TTNC := ttnc1 }), rng)
  | PolState.srpt jobs ra =>
      let ttnc1 := oSub s.TTNC dt
      let clock1 := s.clock + dt
      if oLeZero ttnc1 then
        let st1 := s.state - 1
        let nc1 := s.num_completions + 1
        -- SRPT.updateET, called before nextJob: this is the only policy
        -- that assigns `_last_response_time`
        let t := clock1 - ra
        let T1 := s.T * ((nc1 : ℚ) - 1) / (nc1 : ℚ) + t / (nc1 : ℚ)
        if 0 < st1 then
          ((true, { s with pol := PolState.srpt (popMin jobs).2 (popMin jobs).1.2,
                           clock := clock1,
                           state := st1, num_completions := nc1, T := T1,
                           last_response_time := some t,
                           TTNC := some (popMin jobs).1.1 }), rng)
        else
          ((true, { s with clock := clock1, state := st1, num_completions := nc1,
                           T := T1, last_response_time := some t,
                           TTNC := none }), rng)
      else
        ((false, { s with clock := clock1, TTNC := ttnc1 }), rng)

/-! ### QueueSystem: validation and routing -/

/-- `QueueSystem._verify_transition_matrix`, as a Boolean (`true` = no
exception).  An empty matrix passes; otherwise the shape must be
`n × (n+1)` and every row sum must be within `1e-9` of 1. -/
def verifyTransitionMatrix (M : List (List ℚ)) (nServers : Nat) : Bool :=
  if M.isEmpty then true
  else if M.length ≠ nServers || M.any (fun row => row.length ≠ nServers + 1) then
    false
  else
    M.all (fun row => decide (rabs (row.sum - 1) ≤ 1 / 10 ^ 9))

/-- The scan inside `_route_job`: walk the row accumulating `acc += p`,
returning the offset of the first entry with `u < acc` (`none` when the
loop falls through). -/
def routeScan (u : ℚ) : ℚ → List ℚ → Option Nat
  | _, [] => none
  | acc, p :: rest =>
      if u < acc + p then some 0 else (routeScan u (acc + p) rest).map (· + 1)

/-- `QueueSystem._route_job`: deterministic tandem `i+1` without a matrix
(no uniform drawn); otherwise draw one uniform and scan row `i`
cumulatively, treating fall-through as exit (`nServers`). -/
def routeJob (M : List (List ℚ)) (sam : Samplers) (nServers : Nat) (i : Nat)
    (rng : Nat) : Nat × Nat :=
  if M.isEmpty then (i + 1, rng)
  else
    match routeScan (sam.uniform rng).1 0 (M.getD i []) with
    | some j => (j, (sam.uniform rng).2)
    | none => (nServers, (sam.uniform rng).2)

/-! ### EventLog -/

/-- `EventLog` kind constants. -/
inductive EvKind where
  | arrival
  | departure
  | route
  | rejection
deriving DecidableEq

/-- One row of the parallel-vector event log; `fromServer`/`toServer` use
the sentinel `-1` for `EXTERNAL`/`SYSTEM_EXIT`. -/
structure LogEntry where
  time : Time
  kind : EvKind
  fromServer : Int
  toServer : Int
  state : Int
deriving DecidableEq

/-- `log._append`, applied only when tracking is enabled. -/
def logAppend (log : Option (List LogEntry)) (time : Time) (kind : EvKind)
    (f t st : Int) : Option (List LogEntry) :=
  log.map (fun l => l ++ [⟨time, kind, f, t, st⟩])

/-! ### The engine state and main loops -/

/-- `min(s.queryTTNC() for s in servers)` (`none` both for "all idle" and
for the empty server list, on which Python's `min` would raise). -/
def minTTNC (servers : List ServerSt) : Option Time :=
  servers.foldl (fun a s => oMin a s.TTNC) none

/-- Advance every server by `dt` in index order, collecting the indices of
those whose `update` returned true, threading the generator state. -/
def updateAll (sam : Samplers) (dt : Time) :
    List ServerSt → Nat → Nat → List ServerSt × List Nat × Nat
  | [], _, rng => ([], [], rng)
  | s :: rest, i, rng =>
      let u := serverUpdate sam i s dt rng
      let r := updateAll sam dt rest (i + 1) u.2
      (u.1.2 :: r.1, (if u.1.1 then [i] else []) ++ r.2.1, r.2.2)

/-- Errors surfaced by the embedded interpreter.  `attributeError` is
raised when the engine reads a station's `_last_response_time` and the
attribute was never assigned; `valueError` is transition-matrix
validation failure. -/
inductive PyErr where
  | attributeError
  | valueError
deriving DecidableEq

/-- Warmup-phase loop state (`queueSystem.py` lines 121-152): no
clock/area accumulation, departures counted in `warmup_done`. -/
structure WSt where
  servers : List ServerSt
  rng : Nat
  ttna : Time
  state : Int
  warmup_done : Nat
deriving DecidableEq

/-- Route one completed job during warmup. -/
def warmRouteOne (sam : Samplers) (M : List (List ℚ)) (w : WSt) (idx : Nat) : WSt :=
  let n := w.servers.length
  let d := routeJob M sam n idx w.rng
  if n ≤ d.1 then
    { w with rng := d.2, warmup_done := w.warmup_done + 1, state := w.state - 1 }
  else
    let dest := w.servers.getD d.1 default
    let dest1 := { dest with num_arrivals := dest.num_arrivals + 1 }
    if isFull dest1 then
      { w with rng := d.2,
               servers := w.servers.set d.1
                 ({ dest1 with num_rejected := dest1.num_rejected + 1 }),
               warmup_done := w.warmup_done + 1, state := w.state - 1 }
    else
      let a := serverArrival sam d.1 dest1 d.2
      { w with rng := a.2, servers := w.servers.set d.1 a.1 }

def warmRouteAll (sam : Samplers) (M : List (List ℚ)) :
    List Nat → WSt → WSt
  | [], w => w
  | idx :: rest, w => warmRouteAll sam M rest (warmRouteOne sam M w idx)

/-- One iteration of the warmup loop body. -/
def warmStep (sam : Samplers) (M : List (List ℚ)) (w : WSt) : WSt :=
  let ttnc := minTTNC w.servers
  let ttne := match ttnc with | none => w.ttna | some c => rmin c w.ttna
  let u := updateAll sam ttne w.servers 0 w.rng
  let w1 := warmRouteAll sam M u.2.1 { w with servers := u.1, rng := u.2.2 }
  let ttnaLe := match ttnc with | none => true | some c => decide (w.ttna ≤ c)
  if ttnaLe then
    let s0 := w1.servers.getD 0 default
    let s0a := { s0 with num_arrivals := s0.num_arrivals + 1 }
    let w2 :=
      if isFull s0a then
        { w1 with
          servers := w1.servers.set 0
            ({ s0a with num_rejected := s0a.num_rejected + 1 }) }
      else
        let a := serverArrival sam 0 s0a w1.rng
        { w1 with servers := w1.servers.set 0 a.1, rng := a.2,
                  state := w1.state + 1 }
    let na := sam.arrival w2.rng
    { w2 with ttna := na.1, rng := na.2 }
  else
    { w1 with ttna := w1.ttna - ttne }

/-- The warmup loop, with fuel (`none` = fuel exhausted before `warmup`
system departures occurred). -/
def warmLoop (sam : Samplers) (M : List (List ℚ)) (warmup : Nat) :
    Nat → WSt → Option WSt
  | fuel, w =>
    if warmup ≤ w.warmup_done then some w
    else
      match fuel with
      | 0 => none
      | f + 1 => warmLoop sam M warmup f (warmStep sam M w)

/-- Measurement-phase loop state (`queueSystem.py` lines 160-225).
`rts`/`log` are `some` exactly when the corresponding tracking flag is
set.  `trace` is verification-only instrumentation recording the
`(state_total, dt)` pair of each event step; it influences nothing. -/
structure MSt where
  servers : List ServerSt
  rng : Nat
  ttna : Time
  state : Int
  num_completions : Nat
  area_n : Time
  clock : Time
  rts : Option (List Time)
  log : Option (List LogEntry)
  trace : List (Int × Time)
deriving DecidableEq

instance : Inhabited MSt := ⟨⟨[], 0, 0, 0, 0, 0, 0, none, none, []⟩⟩

/-- Route one completed job during measurement (`queueSystem.py` lines
187-209).  Reading `_last_response_time` from a station that never
assigned it raises `AttributeError`. -/
def routeOne (sam : Samplers) (M : List (List ℚ)) (σ : MSt) (idx : Nat) :
    Except PyErr MSt :=
  let n := σ.servers.length
  let d := routeJob M sam n idx σ.rng
  if n ≤ d.1 then
    let st1 := σ.state - 1
    let σ1 := { σ with rng := d.2, num_completions := σ.num_completions + 1,
                       state := st1 }
    match σ.rts with
    | none =>
        Except.ok { σ1 with
          log := logAppend σ1.log σ1.clock EvKind.departure (idx : Int) (-1) st1 }
    | some acc =>
        match (σ.servers.getD idx default).last_response_time with
        | none => Except.error PyErr.attributeError
        | some v =>
            Except.ok { σ1 with
              rts := some (acc ++ [v]),
              log := logAppend σ1.log σ1.clock EvKind.departure (idx : Int) (-1) st1 }
  else
    let dest := σ.servers.getD d.1 default
    let dest1 := { dest with num_arrivals := dest.num_arrivals + 1 }
    if isFull dest1 then
      let st1 := σ.state - 1
      Except.ok { σ with
        rng := d.2,
        servers := σ.servers.set d.1
          ({ dest1 with num_rejected := dest1.num_rejected + 1 }),
        num_completions := σ.num_completions + 1, state := st1,
        log := logAppend σ.log σ.clock EvKind.rejection (idx : Int) (d.1 : Int) st1 }
    else
      let a := serverArrival sam d.1 dest1 d.2
      Except.ok { σ with
        rng := a.2, servers := σ.servers.set d.1 a.1,
        log := logAppend σ.log σ.clock EvKind.route (idx : Int) (d.1 : Int) σ.state }

def routeAll (sam : Samplers) (M : List (List ℚ)) :
    List Nat → MSt → Except PyErr MSt
  | [], σ => Except.ok σ
  | idx :: rest, σ =>
      match routeOne sam M σ idx with
      | Except.error e => Except.error e
      | Except.ok σ1 => routeAll sam M rest σ1

/-- One iteration of the measurement loop body (lines 174-225): advance
the clock and the area integral, update all stations, route completions
in index order, then handle the external arrival when `ttna <= ttnc`. -/
def measStep (sam : Samplers) (M : List (List ℚ)) (σ : MSt) : Except PyErr MSt :=
  let ttnc := minTTNC σ.servers
  let ttne := match ttnc with | none => σ.ttna | some c => rmin c σ.ttna
  let u := updateAll sam ttne σ.servers 0 σ.rng
  let σ1 := { σ with clock := σ.clock + ttne,
                     area_n := σ.area_n + (σ.state : ℚ) * ttne,
                     trace := σ.trace ++ [(σ.state, ttne)],
                     servers := u.1, rng := u.2.2 }
  match routeAll sam M u.2.1 σ1 with
  | Except.error e => Except.error e
  | Except.ok σ2 =>
    let ttnaLe := match ttnc with | none => true | some c => decide (σ.ttna ≤ c)
    if ttnaLe then
      let s0 := σ2.servers.getD 0 default
      let s0a := { s0 with num_arrivals := s0.num_arrivals + 1 }
      let σ3 :=
        if isFull s0a then
          { σ2 with
            servers := σ2.servers.set 0
              ({ s0a with num_rejected := s0a.num_rejected + 1 }),
            log := logAppend σ2.log σ2.clock EvKind.rejection (-1) 0 σ2.state }
        else
          let a := serverArrival sam 0 s0a σ2.rng
          { σ2 with
            servers := σ2.servers.set 0 a.1, rng := a.2,
            state := σ2.state + 1,
            log := logAppend σ2.log σ2.clock EvKind.arrival (-1) 0 (σ2.state + 1) }
      let na := sam.arrival σ3.rng
      Except.ok { σ3 with ttna := na.1, rng := na.2 }
    else
      Except.ok { σ2 with ttna := σ2.ttna - ttne }

/-- The measurement loop: run `measStep` while `num_completions <
num_events`, with fuel (`ok none` = fuel exhausted). -/
def measLoop (sam : Samplers) (M : List (List ℚ)) (numEvents : Nat) :
    Nat → MSt → Except PyErr (Option MSt)
  | fuel, σ =>
    if σ.num_completions < numEvents then
      match fuel with
      | 0 => Except.ok none
      | f + 1 =>
          match measStep sam M σ with
          | Except.error e => Except.error e
          | Except.ok σ1 => measLoop sam M numEvents f σ1
    else
      Except.ok (some σ)

/-- Zero `num_rejected` and `num_arrivals` after the warmup phase
(`queueSystem.py` lines 154-158). -/
def clearArrRej (s : ServerSt) : ServerSt :=
  { s with num_rejected := 0, num_arrivals := 0 }

/-- Result of `sim`: the final measurement state together with the
returned `(mean_n, mean_t)` pair.  `ok none` means the given fuel was
exhausted before `num_events` system departures. -/
abbrev SimRes := Except PyErr (Option (MSt × ℚ × ℚ))

instance (α β : Type) [DecidableEq α] [DecidableEq β] :
    DecidableEq (Except α β) := fun a b =>
  match a, b with
  | Except.ok x, Except.ok y =>
      if h : x = y then isTrue (by rw [h]) else isFalse (by simp [h])
  | Except.error x, Except.error y =>
      if h : x = y then isTrue (by rw [h]) else isFalse (by simp [h])
  | Except.ok _, Except.error _ => isFalse (by simp)
  | Except.error _, Except.ok _ => isFalse (by simp)

/-- `QueueSystem.sim`: seed, validate, reset the stations, draw the first
inter-arrival time, run the warmup loop, clear per-station
arrival/rejection counters, run the measurement loop, and return
`(area_n / clock, area_n / max(1, num_completions))`. -/
def sim (sam : Samplers) (M : List (List ℚ)) (servers0 : List ServerSt)
    (rng0 : Nat) (numEvents : Nat) (seed : Option Nat) (warmup : Nat)
    (trackRT trackEv : Bool) (fuel : Nat) : SimRes :=
  let rng1 := match seed with | some sd => sam.seedFn sd | none => rng0
  if verifyTransitionMatrix M servers0.length then
    let servers1 := servers0.map resetServer
    let na := sam.arrival rng1
    let w0 : WSt := ⟨servers1, na.2, na.1, 0, 0⟩
    match (if 0 < warmup then warmLoop sam M warmup fuel w0 else some w0) with
    | none => Except.ok none
    | some w =>
      let σ0 : MSt :=
        ⟨w.servers.map clearArrRej, w.rng, w.ttna, w.state, 0, 0, 0,
         (if trackRT then some [] else none),
         (if trackEv then some [] else none), []⟩
      match measLoop sam M numEvents fuel σ0 with
      | Except.error e => Except.error e
      | Except.ok none => Except.ok none
      | Except.ok (some σf) =>
          Except.ok (some (σf, σf.area_n / σf.clock,
            σf.area_n / rmax 1 ((σf.num_completions : ℚ))))
  else
    Except.error PyErr.valueError

/-! ### Seed derivation (`results.py`) -/

/-- The golden-ratio constant `_PHI`. -/
def PHI : Nat := 0x9E3779B97F4A7C15

/-- `_splitmix64`: one round of the Steele/Vigna SplitMix64 mixer, with
all arithmetic reduced modulo `2^64` (the source's `& _MASK64`). -/
def splitmix64 (x0 : Nat) : Nat :=
  let x1 := (x0 + PHI) % 2 ^ 64
  let x2 := ((x1 ^^^ (x1 >>> 30)) * 0xBF58476D1CE4E5B9) % 2 ^ 64
  let x3 := ((x2 ^^^ (x2 >>> 27)) * 0x94D049BB133111EB) % 2 ^ 64
  (x3 ^^^ (x3 >>> 31)) % 2 ^ 64

/-- `_derive_seed`: deterministic per-replication seed. -/
def deriveSeed (baseSeed index : Nat) : Nat :=
  splitmix64 ((baseSeed + index * PHI) % 2 ^ 64)

/-! ### Specification-side definitions and projections used by the claims -/

/-- Constructor tag of a policy container (the Python object's class). -/
def polTag : PolState → Nat
  | PolState.base _ => 0
  | PolState.fcfsk _ _ => 1
  | PolState.ps _ _ => 2
  | PolState.fb _ => 3
  | PolState.srpt _ _ => 4

/-- The configuration a station keeps across `reset`: multiplicity,
buffer capacity, and the policy class (represented by the freshly reset
container). -/
def serverConfig (s : ServerSt) : Nat × Option Nat × PolState :=
  (s.num_servers, s.buffer_capacity, (resetServer s).pol)

/-- Rebuild a freshly reset station from its configuration. -/
def serverFromConfig (c : Nat × Option Nat × PolState) : ServerSt :=
  ⟨c.1, c.2.1, 0, none, 0, 0, 0, 0, 0, none, c.2.2⟩

/-- The FB TTNC formula as the specification states it:
`min(min_remaining_active * num_active, (next_level - min_attained) * num_active)`
with the active set `A` the jobs whose attained service is within the tie
tolerance of the minimum. -/
def fbSpecTTNC (jobs : List (Time × Time × Time)) : Option Time :=
  match qMin (jobs.map (fun j => j.2.1)) with
  | none => none
  | some minAtt =>
      let active := jobs.filter (fun j => decide (j.2.1 ≤ minAtt + fbEps))
      let inactive := jobs.filter (fun j => !(decide (j.2.1 ≤ minAtt + fbEps)))
      let minRemActive := qMin (active.map (fun j => j.1))
      let nextLevel := qMin (inactive.map (fun j => j.2.1))
      oMin (minRemActive.map (fun r => r * ((active.length : ℚ))))
        (nextLevel.map (fun nl => (nl - minAtt) * ((active.length : ℚ))))

/-- The SRPT station invariant claimed implicitly by the code: whenever
jobs are present, the running job's remaining time (stored in `TTNC`) is
at most the remaining time of every job parked in the heap; bookkeeping
components (heap size and idle shape) are included because they are
needed for the invariant to be inductive. -/
def srptInv (s : ServerSt) : Prop :=
  match s.pol with
  | PolState.srpt jobs _ =>
      if s.state ≤ 0 then s.state = 0 ∧ jobs = [] ∧ s.TTNC = none
      else
        ((jobs.length : Int) = s.state - 1) ∧
        match s.TTNC with
        | none => False
        | some t => ∀ p ∈ jobs, t ≤ p.1
  | _ => True

/-- Kendall flow conservation at one station:
`num_arrivals ≥ num_completions + num_rejected + state`. -/
def flowGe (s : ServerSt) : Prop :=
  (s.num_completions : Int) + (s.num_rejected : Int) + s.state ≤ (s.num_arrivals : Int)

/-- The station is not a multi-server FCFS station. -/
def notMultiFCFS (s : ServerSt) : Prop :=
  match s.pol with
  | PolState.fcfsk _ _ => False
  | _ => True

/-- The flow invariant at one station index: the station at index `i`
(`default` when out of range) is not multi-server FCFS and satisfies
flow conservation.  Stated per index so that a mixed topology may hold
multi-server FCFS stations at other indices. -/
abbrev flowAt (l : List ServerSt) (i : Nat) : Prop :=
  notMultiFCFS (l.getD i default) ∧ flowGe (l.getD i default)

/-- Did `sim` run to completion? -/
def resIsDone : SimRes → Bool
  | Except.ok (some _) => true
  | _ => false

/-- Final measurement state of a completed run. -/
def resFinal : SimRes → MSt
  | Except.ok (some x) => x.1
  | _ => default

/-- The returned `mean_N` of a completed run. -/
def resMeanN : SimRes → ℚ
  | Except.ok (some x) => x.2.1
  | _ => 0

/-- The returned `mean_T` of a completed run. -/
def resMeanT : SimRes → ℚ
  | Except.ok (some x) => x.2.2
  | _ => 0

/-- The Riemann sum over the recorded event steps:
`Σ state_total · dt`. -/
def traceSum (tr : List (Int × Time)) : ℚ :=
  (tr.map (fun p => ((p.1 : ℚ)) * p.2)).sum

/-- Counters `(num_arrivals, num_completions, num_rejected, state)` of
station 0 after a completed run. -/
def finalStationCounters (r : SimRes) : Option (Nat × Nat × Nat × Int) :=
  match r with
  | Except.ok (some x) =>
      let s := x.1.servers.getD 0 default
      some (s.num_arrivals, s.num_completions, s.num_rejected, s.state)
  | _ => none

/-- `(state, ttnc)` of station 0 after a completed run. -/
def finalStationTTNCState (r : SimRes) : Option (Int × Option Time) :=
  match r with
  | Except.ok (some x) =>
      some ((x.1.servers.getD 0 default).state, (x.1.servers.getD 0 default).TTNC)
  | _ => none

/-! ### Concrete stations and samplers used as test inputs -/

/-- Degenerate deterministic samplers: inter-arrival 1, size 1/2. -/
def constSam : Samplers :=
  { seedFn := fun sd => sd
    arrival := fun r => (1, r + 1)
    size := fun _ r => (1 / 2, r + 1)
    uniform := fun r => (1 / 2, r + 1) }

/-- A fresh single-server FCFS station (base `Server` state machine). -/
def fcfs1Station : ServerSt :=
  { num_servers := 1, buffer_capacity := none, clock := 0, TTNC := none,
    T := 0, num_completions := 0, state := 0, num_rejected := 0,
    num_arrivals := 0, last_response_time := none, pol := PolState.base [] }

/-- A fresh SRPT station. -/
def srptStation : ServerSt :=
  { fcfs1Station with pol := PolState.srpt [] 0 }

/-- A fresh FB station. -/
def fbStation : ServerSt :=
  { fcfs1Station with pol := PolState.fb [] }

/-- A fresh two-server FCFS station. -/
def fcfs2Station : ServerSt :=
  { fcfs1Station with num_servers := 2, pol := PolState.fcfsk [] [] }

/-- Samplers for the multi-server FCFS scenario: three inter-arrivals of
1/4 followed by a long gap; every service size is 1. -/
def burstSam : Samplers :=
  { seedFn := fun _ => 0
    arrival := fun r => (if r ≤ 4 then 1 / 4 else 1000, r + 1)
    size := fun _ r => (1, r + 1)
    uniform := fun r => (1 / 2, r + 1) }


/-- The event-step increment `dt = min(ttnc, ttna)` of the measurement
loop, as a function of the loop state. -/
def stepDt (σ : MSt) : Time :=
  match minTTNC σ.servers with
  | none => σ.ttna
  | some c => rmin c σ.ttna

/-- A single-server FCFS station with arbitrary stale mutable state but
the same configuration as `fcfs1Station`. -/
def dirtyStation : ServerSt :=
  { fcfs1Station with
    clock := 99, TTNC := some 4, T := 7, num_completions := 3,
    state := 5, num_rejected := 2, num_arrivals := 9, last_response_time := some 1,
    pol := PolState.base [3] }

/-- An FB station holding one job of size 1 that has received no service. -/
def fbOneJobStation : ServerSt :=
  { fcfs1Station with pol := PolState.fb [(1, 0, 0)], TTNC := some 1, state := 1 }

/-- A measurement-loop state holding one fresh FCFS station, with the
first arrival due in one time unit. -/
def mstInit : MSt := ⟨[fcfs1Station], 0, 1, 0, 0, 0, 0, none, none, []⟩

/-! ## Claim theorems -/

/-- C9: for every base seed and replication index, the derived
per-replication seed is SplitMix64 applied to
`base_seed + index * 0x9E3779B97F4A7C15`, with the Steele/Vigna mixer
constants and every operation carried out modulo `2^64`; the result is a
64-bit value and the derivation is a pure function of `(base_seed, index)`. -/
theorem derive_seed_splitmix64 (baseSeed index : Nat) :
    deriveSeed baseSeed index =
      (let z0 := (baseSeed + index * 0x9E3779B97F4A7C15) % 2 ^ 64
       let z1 := (z0 + 0x9E3779B97F4A7C15) % 2 ^ 64
       let z2 := ((z1 ^^^ (z1 >>> 30)) * 0xBF58476D1CE4E5B9) % 2 ^ 64
       let z3 := ((z2 ^^^ (z2 >>> 27)) * 0x94D049BB133111EB) % 2 ^ 64
       (z3 ^^^ (z3 >>> 31)) % 2 ^ 64) ∧
    deriveSeed baseSeed index < 2 ^ 64 :=
  ⟨rfl, Nat.mod_lt _ (by norm_num)⟩

/-- C1 (code bug): with response-time tracking enabled, the engine reads
the exiting station's `_last_response_time`, but only `SRPT.updateET`
ever assigns that attribute; for a single fresh FCFS station with
deterministic samplers (inter-arrival 1, size 1/2) and `num_events = 1`,
the first system departure raises `AttributeError` instead of appending a
response time, so the run never produces a `response_times` vector. -/
theorem respTimes_attributeError_eval :
    sim constSam [] [fcfs1Station] 0 1 (some 42) 0 true false 3
      = Except.error PyErr.attributeError := by
  norm_num [sim, warmLoop, warmStep, warmRouteAll, warmRouteOne, measLoop, measStep,
    routeAll, routeOne, updateAll, serverUpdate, serverArrival, minTTNC, oMin, oSub,
    oLeZero, rmin, rmax, rabs, qMin, isFull, resetServer, clearArrRej, routeJob,
    logAppend, fcfskRecalc, psRecalc, fbRecalc, fbDebit, fbEps, findRemIdx, argminIdx,
    popMin, lexMin, pairLtB, routeScan, verifyTransitionMatrix, constSam, burstSam,
    fcfs1Station, fcfs2Station, finalStationCounters, finalStationTTNCState]

/-- C4 (code bug): a two-server FCFS station receiving three quick
arrivals (inter-arrivals 1/4, sizes 1, then a long gap) finishes a
3-departure simulation with `state = 1` yet `ttnc = +∞`: the `state += 1`
performed when a waiting job is promoted into a freed channel
double-counts that job, so `ttnc = +∞ ⇔ state = 0` fails after the final
`update` call of the run. -/
theorem fcfsk_invariant_violation_eval :
    finalStationTTNCState (sim burstSam [] [fcfs2Station] 0 3 (some 0) 0 false false 7)
      = some (1, none) := by
  norm_num [sim, warmLoop, warmStep, warmRouteAll, warmRouteOne, measLoop, measStep,
    routeAll, routeOne, updateAll, serverUpdate, serverArrival, minTTNC, oMin, oSub,
    oLeZero, rmin, rmax, rabs, qMin, isFull, resetServer, clearArrRej, routeJob,
    logAppend, fcfskRecalc, psRecalc, fbRecalc, fbDebit, fbEps, findRemIdx, argminIdx,
    popMin, lexMin, pairLtB, routeScan, verifyTransitionMatrix, constSam, burstSam,
    fcfs1Station, fcfs2Station, finalStationCounters, finalStationTTNCState]

/-- C3 counterexample: the matrix `[[3/2, -1/2]]` contains a negative
probability, yet it has the right shape for one station and its row sums
to exactly 1, so `_verify_transition_matrix` accepts it and `sim` runs
the event loop (exhausting its fuel on a job that is routed back to
station 0 forever) instead of raising a validation error. -/
theorem negative_prob_passes_validation :
    verifyTransitionMatrix [[3 / 2, -(1 / 2)]] 1 = true ∧
    sim constSam [[3 / 2, -(1 / 2)]] [fcfs1Station] 0 1 (some 42) 0 false false 2
      = Except.ok none ∧
    ((([[3 / 2, -(1 / 2)]] : List (List ℚ)).getD 0 []).getD 1 0 = -(1 / 2) ∧
      (-(1 / 2) : ℚ) < 0) := by
  refine ⟨by norm_num [sim, warmLoop, warmStep, warmRouteAll, warmRouteOne, measLoop, measStep,
    routeAll, routeOne, updateAll, serverUpdate, serverArrival, minTTNC, oMin, oSub,
    oLeZero, rmin, rmax, rabs, qMin, isFull, resetServer, clearArrRej, routeJob,
    logAppend, fcfskRecalc, psRecalc, fbRecalc, fbDebit, fbEps, findRemIdx, argminIdx,
    popMin, lexMin, pairLtB, routeScan, verifyTransitionMatrix, constSam, burstSam,
    fcfs1Station, fcfs2Station, finalStationCounters, finalStationTTNCState], by norm_num [sim, warmLoop, warmStep, warmRouteAll, warmRouteOne, measLoop, measStep,
    routeAll, routeOne, updateAll, serverUpdate, serverArrival, minTTNC, oMin, oSub,
    oLeZero, rmin, rmax, rabs, qMin, isFull, resetServer, clearArrRej, routeJob,
    logAppend, fcfskRecalc, psRecalc, fbRecalc, fbDebit, fbEps, findRemIdx, argminIdx,
    popMin, lexMin, pairLtB, routeScan, verifyTransitionMatrix, constSam, burstSam,
    fcfs1Station, fcfs2Station, finalStationCounters, finalStationTTNCState],
    by norm_num [List.getD], by norm_num⟩

/-- C5 counterexample: the claimed invariant
`num_arrivals ≥ num_completions + num_rejected + state` fails in two
ways.  (1) A run with `warmup = 1` on a single FCFS station
(inter-arrival 1, size 1/2, `num_events = 1`): the warmup reset zeroes
`num_arrivals`/`num_rejected` but keeps `num_completions` and `state`, so
the final event boundary of the measurement phase has counters
`(num_arrivals, num_completions, num_rejected, state) = (1, 2, 0, 0)`.
(2) A run with `warmup = 0` on a single multi-server FCFS station (two
channels, sizes 1, a three-arrival burst then a long gap): wait-queue
promotion double-counts `state`, so the drained station ends with
counters `(3, 3, 0, 1)`.  Both violate the claimed inequality. -/
theorem warmup_flow_counterexample :
    (finalStationCounters (sim constSam [] [fcfs1Station] 0 1 (some 42) 1 false false 5)
      = some (1, 2, 0, 0) ∧ ¬(((2 : Int) + 0 + 0 : Int) ≤ 1)) ∧
    (finalStationCounters (sim burstSam [] [fcfs2Station] 0 3 (some 0) 0 false false 7)
      = some (3, 3, 0, 1) ∧ ¬(((3 : Int) + 0 + 1 : Int) ≤ 3)) := by
  refine ⟨⟨?_, by decide⟩, ⟨?_, by decide⟩⟩
  · norm_num [sim, warmLoop, warmStep, warmRouteAll, warmRouteOne, measLoop, measStep,
      routeAll, routeOne, updateAll, serverUpdate, serverArrival, minTTNC, oMin, oSub,
      oLeZero, rmin, rmax, rabs, qMin, isFull, resetServer, clearArrRej, routeJob,
      logAppend, fcfskRecalc, psRecalc, fbRecalc, fbDebit, fbEps, findRemIdx, argminIdx,
      popMin, lexMin, pairLtB, routeScan, verifyTransitionMatrix, constSam, burstSam,
      fcfs1Station, fcfs2Station, finalStationCounters, finalStationTTNCState]
  · norm_num [sim, warmLoop, warmStep, warmRouteAll, warmRouteOne, measLoop, measStep,
      routeAll, routeOne, updateAll, serverUpdate, serverArrival, minTTNC, oMin, oSub,
      oLeZero, rmin, rmax, rabs, qMin, isFull, resetServer, clearArrRej, routeJob,
      logAppend, fcfskRecalc, psRecalc, fbRecalc, fbDebit, fbEps, findRemIdx, argminIdx,
      popMin, lexMin, pairLtB, routeScan, verifyTransitionMatrix, constSam, burstSam,
      fcfs1Station, fcfs2Station, finalStationCounters, finalStationTTNCState]

/-! ### C7: routing -/

theorem routeScan_some_spec (u : ℚ) :
    ∀ (row : List ℚ) (acc : ℚ) (j : Nat), routeScan u acc row = some j →
      u < acc + (row.take (j + 1)).sum ∧ ∀ k < j, acc + (row.take (k + 1)).sum ≤ u := by
  intro row
  induction row with
  | nil => intro acc j h; simp [routeScan] at h
  | cons p rest ih =>
    intro acc j h
    by_cases hc : u < acc + p
    · rw [routeScan, if_pos hc] at h
      cases h
      refine ⟨by simpa using hc, by omega⟩
    · rw [routeScan, if_neg hc] at h
      rcases Option.map_eq_some'.mp h with ⟨j1, hj1, rfl⟩
      rcases ih (acc + p) j1 hj1 with ⟨ih1, ih2⟩
      constructor
      · simpa [List.take_succ_cons, add_assoc] using ih1
      · intro k hk
        match k with
        | 0 => simpa using not_lt.mp hc
        | Nat.succ k1 =>
            have := ih2 k1 (by omega)
            simpa [List.take_succ_cons, add_assoc] using this

theorem routeScan_isSome (u : ℚ) :
    ∀ (row : List ℚ) (acc : ℚ), acc ≤ u → u < acc + row.sum →
      (routeScan u acc row).isSome := by
  intro row
  induction row with
  | nil =>
    intro acc h1 h2
    simp only [List.sum_nil, add_zero] at h2
    exact absurd h2 (not_lt.mpr h1)
  | cons p rest ih =>
    intro acc h1 h2
    by_cases hc : u < acc + p
    · simp [routeScan, hc]
    · have hle : acc + p ≤ u := not_lt.mp hc
      have hsum : u < acc + p + rest.sum := by
        rw [List.sum_cons] at h2; linarith
      have := ih (acc + p) hle hsum
      simpa [routeScan, hc] using this

/-- C7: for a completing station `i`, routing with an empty transition
matrix returns `i + 1` and draws no uniform (generator state unchanged);
with a matrix it draws exactly one uniform `u` and, whenever
`0 ≤ u < Σ row`, returns the smallest index `j` whose cumulative row sum
`P[i][0..j]` exceeds `u` (an index equal to the number of servers, the
fall-through value, means the job exits the system). -/
theorem route_job_spec (M : List (List ℚ)) (sam : Samplers) (n i rng : Nat) :
    (M = [] → routeJob M sam n i rng = (i + 1, rng)) ∧
    (M ≠ [] →
      (routeJob M sam n i rng).2 = (sam.uniform rng).2 ∧
      (0 ≤ (sam.uniform rng).1 →
        (sam.uniform rng).1 < (M.getD i []).sum →
          (sam.uniform rng).1
              < ((M.getD i []).take ((routeJob M sam n i rng).1 + 1)).sum ∧
            ∀ k < (routeJob M sam n i rng).1,
              ((M.getD i []).take (k + 1)).sum ≤ (sam.uniform rng).1)) := by
  constructor
  · intro h
    subst h
    simp [routeJob]
  · intro hne
    have hne2 : M.isEmpty = false := by
      simpa [List.isEmpty_iff] using hne
    constructor
    · rw [routeJob, if_neg (by simp [hne2])]
      cases routeScan (sam.uniform rng).1 0 (M.getD i []) <;> rfl
    · intro h0 hlt
      have hsome := routeScan_isSome (sam.uniform rng).1 (M.getD i []) 0 h0
        (by simpa using hlt)
      rcases Option.isSome_iff_exists.mp hsome with ⟨j, hj⟩
      have hres : (routeJob M sam n i rng).1 = j := by
        rw [routeJob, if_neg (by simp [hne2]), hj]
      rcases routeScan_some_spec (sam.uniform rng).1 (M.getD i []) 0 j hj with ⟨h1, h2⟩
      rw [hres]
      exact ⟨by simpa using h1, fun k hk => by simpa using h2 k hk⟩

/-- C2: with a fixed seed, two runs of `sim` on the same configuration
produce identical outputs: the `(mean_N, mean_T)` pair, the
`response_times` vector, the event log, and even the raised exception are
bit-identical, regardless of the stations' stale mutable state or the
prior generator state, because `sim` reseeds the generator and resets
every station before the event loop. -/
theorem sim_two_run_deterministic (sam : Samplers) (M : List (List ℚ))
    (sv1 sv2 : List ServerSt) (rng1 rng2 : Nat) (ne sd warmup : Nat)
    (trt tre : Bool) (fuel : Nat)
    (hcfg : sv1.map serverConfig = sv2.map serverConfig) :
    sim sam M sv1 rng1 ne (some sd) warmup trt tre fuel
      = sim sam M sv2 rng2 ne (some sd) warmup trt tre fuel := by
  have hlen : sv1.length = sv2.length := by
    simpa using congrArg List.length hcfg
  have hreset : sv1.map resetServer = sv2.map resetServer := by
    have key : ∀ sv : List ServerSt,
        sv.map resetServer = (sv.map serverConfig).map serverFromConfig := by
      intro sv
      rw [List.map_map]
      rfl
    rw [key sv1, key sv2, hcfg]
  simp only [sim, hlen, hreset]

/-! ### SRPT heap lemmas -/

theorem pairLtB_le {a b : Time × Time} (h : pairLtB a b = true) : a.1 ≤ b.1 := by
  rcases Bool.or_eq_true _ _ |>.mp h with h1 | h2
  · exact le_of_lt (of_decide_eq_true h1)
  · rcases Bool.and_eq_true _ _ |>.mp h2 with ⟨h21, _⟩
    exact le_of_eq (of_decide_eq_true h21)

theorem pairLtB_not_le {a b : Time × Time} (h : pairLtB a b = false) : b.1 ≤ a.1 := by
  rcases le_or_lt b.1 a.1 with h1 | h1
  · exact h1
  · exfalso
    have : pairLtB a b = true := by
      simp [pairLtB]
      exact Or.inl h1
    rw [this] at h
    cases h

theorem lexMin_foldl_spec (xs : List (Time × Time)) :
    ∀ m0 : Time × Time,
      (xs.foldl (fun m y => if pairLtB y m then y else m) m0) ∈ m0 :: xs ∧
      (xs.foldl (fun m y => if pairLtB y m then y else m) m0).1 ≤ m0.1 ∧
      ∀ p ∈ xs, (xs.foldl (fun m y => if pairLtB y m then y else m) m0).1 ≤ p.1 := by
  induction xs with
  | nil => intro m0; simp
  | cons x xs ih =>
    intro m0
    by_cases hx : pairLtB x m0
    · rw [List.foldl_cons, if_pos hx]
      rcases ih x with ⟨h1, h2, h3⟩
      have hxm : x.1 ≤ m0.1 := pairLtB_le hx
      refine ⟨List.mem_cons.mpr (Or.inr h1), le_trans h2 hxm, ?_⟩
      intro p hp
      rcases List.mem_cons.mp hp with rfl | hp
      · exact h2
      · exact h3 p hp
    · rw [List.foldl_cons, if_neg hx]
      rcases ih m0 with ⟨h1, h2, h3⟩
      have hmx : m0.1 ≤ x.1 := pairLtB_not_le (Bool.not_eq_true _ |>.mp hx)
      refine ⟨?_, h2, ?_⟩
      · rcases List.mem_cons.mp h1 with h | h
        · exact List.mem_cons.mpr (Or.inl h)
        · exact List.mem_cons.mpr (Or.inr (List.mem_cons.mpr (Or.inr h)))
      · intro p hp
        rcases List.mem_cons.mp hp with rfl | hp
        · exact le_trans h2 hmx
        · exact h3 p hp

theorem lexMin_spec {l : List (Time × Time)} {m : Time × Time}
    (h : lexMin l = some m) : m ∈ l ∧ ∀ p ∈ l, m.1 ≤ p.1 := by
  match l with
  | [] => cases h
  | x :: xs =>
    rw [lexMin] at h
    cases h
    rcases lexMin_foldl_spec xs x with ⟨h1, h2, h3⟩
    refine ⟨h1, ?_⟩
    intro p hp
    rcases List.mem_cons.mp hp with rfl | hp
    · exact h2
    · exact h3 p hp

theorem popMin_spec {l : List (Time × Time)} (hne : l ≠ []) :
    (popMin l).1 ∈ l ∧ ((popMin l).2).length + 1 = l.length ∧
    (∀ p ∈ (popMin l).2, (popMin l).1.1 ≤ p.1) := by
  match l with
  | [] => exact absurd rfl hne
  | x :: xs =>
    have hsome : ∃ m, lexMin (x :: xs) = some m := ⟨_, rfl⟩
    rcases hsome with ⟨m, hm⟩
    rcases lexMin_spec hm with ⟨hmem, hle⟩
    rw [popMin, hm]
    refine ⟨hmem, ?_, ?_⟩
    · have := List.length_erase_of_mem hmem
      simp only [this]
      have : 0 < (x :: xs).length := by simp
      omega
    · intro p hp
      exact hle p (List.mem_of_mem_erase hp)

/-! ### Policy-class preservation -/

theorem polTag_reset (s : ServerSt) : polTag (resetServer s).pol = polTag s.pol := by
  obtain ⟨ns, bc, ck, ttnc, T, nc, st, nr, na, lrt, pol⟩ := s
  cases pol <;> rfl

theorem polTag_arrival (sam : Samplers) (i : Nat) (s : ServerSt) (rng : Nat) :
    polTag ((serverArrival sam i s rng).1).pol = polTag s.pol := by
  obtain ⟨ns, bc, ck, ttnc, T, nc, st, nr, na, lrt, pol⟩ := s
  cases pol <;> simp only [serverArrival] <;> first | rfl | (split_ifs <;> rfl)

theorem polTag_update (sam : Samplers) (i : Nat) (s : ServerSt) (dt : Time) (rng : Nat) :
    polTag (((serverUpdate sam i s dt rng).1.2)).pol = polTag s.pol := by
  obtain ⟨ns, bc, ck, ttnc, T, nc, st, nr, na, lrt, pol⟩ := s
  cases pol with
  | base ats => simp only [serverUpdate]; split_ifs <;> rfl
  | fcfsk ch wq =>
      simp only [serverUpdate]
      split_ifs
      · cases wq <;> rfl
      · rfl
  | ps rem ja => simp only [serverUpdate]; split_ifs <;> rfl
  | fb jobs =>
      cases jobs with
      | nil => rfl
      | cons j rest =>
          simp only [serverUpdate]
          split_ifs
          · cases hf : findRemIdx (fbDebit (j :: rest) dt) <;> simp only [hf] <;> rfl
          · rfl
  | srpt jobs ra => simp only [serverUpdate]; split_ifs <;> rfl

theorem srptInv_of_polTag_ne (s : ServerSt) (h : polTag s.pol ≠ 4) : srptInv s := by
  obtain ⟨ns, bc, ck, ttnc, T, nc, st, nr, na, lrt, pol⟩ := s
  cases pol
  case srpt jobs ra => exact absurd rfl h
  all_goals simp [srptInv]

/-! ### C10: SRPT serves the minimum remaining job -/

theorem srptInv_srpt (ns : Nat) (bc : Option Nat) (ck : Time) (ttnc : Option Time)
    (T : Time) (nc : Nat) (st : Int) (nr na : Nat) (lrt : Option Time)
    (jobs : List (Time × Time)) (ra : Time) :
    srptInv ⟨ns, bc, ck, ttnc, T, nc, st, nr, na, lrt, PolState.srpt jobs ra⟩ ↔
      (if st ≤ 0 then st = 0 ∧ jobs = [] ∧ ttnc = none
       else ((jobs.length : Int) = st - 1 ∧
         match ttnc with
         | none => False
         | some t => ∀ p ∈ jobs, t ≤ p.1)) :=
  Iff.rfl

/-- C10: the SRPT station invariant — whenever `state > 0` after a
`reset`, `arrival()` or `update(dt)` call, the running job's remaining
time (stored in `ttnc`) is at most the remaining time of every job in
the heap — is established by `reset` and `arrival` and preserved by
`update` for every `dt ≥ 0`, so it holds at every reachable point of a
simulation. -/
theorem srpt_min_remaining_invariant (sam : Samplers) (i : Nat) (s : ServerSt)
    (rng : Nat) (dt : Time) (hinv : srptInv s) :
    srptInv (resetServer s) ∧
    srptInv (serverArrival sam i s rng).1 ∧
    (0 ≤ dt → srptInv ((serverUpdate sam i s dt rng).1.2)) := by
  by_cases htag : polTag s.pol = 4
  case neg =>
    exact ⟨srptInv_of_polTag_ne _ (by rw [polTag_reset]; exact htag),
           srptInv_of_polTag_ne _ (by rw [polTag_arrival]; exact htag),
           fun _ => srptInv_of_polTag_ne _ (by rw [polTag_update]; exact htag)⟩
  case pos =>
    obtain ⟨ns, bc, ck, ttnc, T, nc, st, nr, na, lrt, pol⟩ := s
    cases pol with
    | base ats => exact absurd htag (by norm_num [polTag])
    | fcfsk ch wq => exact absurd htag (by norm_num [polTag])
    | ps rem ja => exact absurd htag (by norm_num [polTag])
    | fb jobs => exact absurd htag (by norm_num [polTag])
    | srpt jobs ra =>
    rw [srptInv_srpt] at hinv
    refine ⟨by simp [resetServer, srptInv], ?_, ?_⟩
    · -- arrival re-establishes the invariant
      simp only [serverArrival]
      by_cases hst : st ≤ 0
      · rw [if_pos hst] at hinv
        obtain ⟨hst0, hjobs, -⟩ := hinv
        subst hst0
        subst hjobs
        rw [if_neg (show ¬((0 : Int) < 0) by omega), List.nil_append]
        rw [srptInv_srpt, if_neg (show ¬((0 : Int) + 1 ≤ 0) by omega)]
        have hne : [((sam.size i rng).1, ck)] ≠ ([] : List (Time × Time)) := by simp
        rcases popMin_spec hne with ⟨-, hlenp, hmin⟩
        refine ⟨?_, hmin⟩
        simp only [List.length_cons, List.length_nil] at hlenp
        omega
      · rw [if_neg hst] at hinv
        obtain ⟨hlen, hmatch⟩ := hinv
        cases httnc : ttnc with
        | none => try rw [httnc] at hmatch
                  exact hmatch.elim
        | some t =>
          try rw [httnc] at hmatch
          replace hmatch : ∀ p ∈ jobs, t ≤ p.1 := hmatch
          rw [if_pos (show (0 : Int) < st by omega)]
          rw [srptInv_srpt, if_neg (show ¬(st + 1 ≤ 0) by omega)]
          have hne : jobs ++ [((some t : Option Time).getD 0, ra)]
              ++ [((sam.size i rng).1, ck)] ≠ [] := by simp
          rcases popMin_spec hne with ⟨-, hlenp, hmin⟩
          refine ⟨?_, hmin⟩
          simp only [List.length_append, List.length_cons, List.length_nil] at hlenp
          omega
    · -- update preserves the invariant for dt ≥ 0
      intro hdt
      cases httnc : ttnc with
      | none =>
        simp only [serverUpdate, oSub, httnc, Option.map_none', oLeZero,
          Bool.false_eq_true, if_false]
        rw [srptInv_srpt]
        try rw [httnc] at hinv
        by_cases hst : st ≤ 0
        · rw [if_pos hst] at hinv ⊢
          exact ⟨hinv.1, hinv.2.1, rfl⟩
        · rw [if_neg hst] at hinv
          exact hinv.2.elim
      | some t =>
        by_cases hst : st ≤ 0
        · rw [if_pos hst] at hinv
          exact absurd hinv.2.2 (by simp [httnc])
        · rw [if_neg hst] at hinv
          try rw [httnc] at hinv
          obtain ⟨hlen, hmatch⟩ := hinv
          replace hmatch : ∀ p ∈ jobs, t ≤ p.1 := hmatch
          by_cases hc : t - dt ≤ 0
          · simp only [serverUpdate, oSub, httnc, Option.map_some', oLeZero,
              decide_eq_true_eq, if_pos hc]
            by_cases hpos : (0 : Int) < st - 1
            · rw [if_pos hpos]
              have hne : jobs ≠ [] := by
                intro h
                rw [h] at hlen
                simp at hlen
                omega
              rcases popMin_spec hne with ⟨-, hlenp, hmin⟩
              rw [srptInv_srpt, if_neg (show ¬(st - 1 ≤ 0) by omega)]
              exact ⟨by omega, hmin⟩
            · rw [if_neg hpos]
              have hjobs : jobs = [] := by
                have hl0 : jobs.length = 0 := by omega
                simpa [List.length_eq_zero] using hl0
              rw [srptInv_srpt, if_pos (show st - 1 ≤ 0 by omega)]
              exact ⟨by omega, hjobs, rfl⟩
          · simp only [serverUpdate, oSub, httnc, Option.map_some', oLeZero,
              decide_eq_true_eq, if_neg hc]
            rw [srptInv_srpt, if_neg hst]
            refine ⟨hlen, ?_⟩
            intro p hp
            have := hmatch p hp
            linarith

/-! ### FB recalculation lemmas -/

/-- Prepend-one step of the running minimum. -/
theorem oMinAcc_foldl (xs : List Time) :
    ∀ a : Time, xs.foldl oMinAcc (some a) = some (xs.foldl rmin a) := by
  induction xs with
  | nil => intro a; rfl
  | cons x xs ih => intro a; simp only [List.foldl_cons, oMinAcc]; exact ih (rmin a x)

theorem oMinAcc_foldl_none (l : List Time) : l.foldl oMinAcc none = qMin l := by
  cases l with
  | nil => rfl
  | cons x xs => simp only [List.foldl_cons, oMinAcc, qMin]; exact oMinAcc_foldl xs x

theorem fbFold_filter (minAtt : Time) (jobs : List (Time × Time × Time)) :
    ∀ (c : Nat) (o1 o2 : Option Time),
      jobs.foldl
        (fun (a : Nat × Option Time × Option Time) j =>
          if j.2.1 ≤ minAtt + fbEps then
            (a.1 + 1, oMinAcc a.2.1 j.1, a.2.2)
          else
            (a.1, a.2.1, oMinAcc a.2.2 j.2.1))
        (c, o1, o2) =
      (c + (jobs.filter (fun j => decide (j.2.1 ≤ minAtt + fbEps))).length,
       ((jobs.filter (fun j => decide (j.2.1 ≤ minAtt + fbEps))).map
          (fun j => j.1)).foldl oMinAcc o1,
       ((jobs.filter (fun j => !(decide (j.2.1 ≤ minAtt + fbEps)))).map
          (fun j => j.2.1)).foldl oMinAcc o2) := by
  induction jobs with
  | nil => intro c o1 o2; simp
  | cons j rest ih =>
    intro c o1 o2
    by_cases hj : j.2.1 ≤ minAtt + fbEps
    · rw [List.foldl_cons, if_pos hj, ih,
        List.filter_cons_of_pos (by simpa using hj),
        List.filter_cons_of_neg (by simpa using hj)]
      simp only [List.length_cons, List.map_cons, List.foldl_cons, Prod.mk.injEq,
        and_true, true_and]
      omega
    · rw [List.foldl_cons, if_neg hj, ih,
        List.filter_cons_of_neg (by simpa using hj),
        List.filter_cons_of_pos (by simpa using hj)]
      simp only [List.map_cons, List.foldl_cons]

theorem fbRecalc_eq_spec (jobs : List (Time × Time × Time)) :
    fbRecalc jobs = fbSpecTTNC jobs := by
  rw [fbRecalc, fbSpecTTNC]
  cases hq : qMin (jobs.map (fun j => j.2.1)) with
  | none => rfl
  | some minAtt =>
    simp only [fbFold_filter minAtt jobs 0 none none, Nat.zero_add,
      oMinAcc_foldl_none]

theorem findRemIdx_isSome_iff (l : List (Time × Time × Time)) :
    (findRemIdx l).isSome ↔ ∃ j ∈ l, j.1 ≤ fbEps := by
  induction l with
  | nil => simp [findRemIdx]
  | cons j rest ih =>
    by_cases hj : j.1 ≤ fbEps
    · simp [findRemIdx, hj]
    · cases hr : findRemIdx rest with
      | none =>
          rw [hr] at ih
          simp only [Option.isSome_none, Bool.false_eq_true, false_iff] at ih
          simp only [findRemIdx, if_neg hj, hr, Option.map_none',
            Option.isSome_none, Bool.false_eq_true, false_iff]
          intro hex
          rcases hex with ⟨x, hx, hxle⟩
          rcases List.mem_cons.mp hx with rfl | hx
          · exact hj hxle
          · exact ih ⟨x, hx, hxle⟩
      | some k =>
          rw [hr] at ih
          simp only [Option.isSome_some, true_iff] at ih
          simp only [findRemIdx, if_neg hj, hr, Option.map_some',
            Option.isSome_some, true_iff]
          rcases ih with ⟨x, hx, hxle⟩
          exact ⟨x, List.mem_cons.mpr (Or.inr hx), hxle⟩

/-- C6: when an FB station with at least one job is advanced by exactly
its current `ttnc`, it checks for a completed job first: `update` returns
true iff some debited job's remaining work is within the `1e-12`
tolerance, in which case `num_completions` increases by one; otherwise
(a level crossing) it returns false, counts no completion, and
recomputes `ttnc` as
`min(min_remaining_active · |A|, (next_level − min_attained) · |A|)`. -/
theorem fb_update_at_ttnc (sam : Samplers) (i : Nat) (s : ServerSt)
    (jobs : List (Time × Time × Time)) (t : Time) (rng : Nat)
    (hpol : s.pol = PolState.fb jobs) (hne : jobs ≠ []) (httnc : s.TTNC = some t) :
    (((serverUpdate sam i s t rng).1.1 = true) ↔ ∃ j ∈ fbDebit jobs t, j.1 ≤ fbEps) ∧
    ((serverUpdate sam i s t rng).1.1 = true →
      ((serverUpdate sam i s t rng).1.2).num_completions = s.num_completions + 1) ∧
    ((serverUpdate sam i s t rng).1.1 = false →
      ((serverUpdate sam i s t rng).1.2).num_completions = s.num_completions ∧
      ((serverUpdate sam i s t rng).1.2).TTNC = fbSpecTTNC (fbDebit jobs t)) := by
  obtain ⟨ns, bc, ck, ttnc, T, nc, st, nr, na, lrt, pol⟩ := s
  simp only at hpol httnc
  subst hpol
  subst httnc
  cases jobs with
  | nil => exact absurd rfl hne
  | cons j rest =>
    have hiff := findRemIdx_isSome_iff (fbDebit (j :: rest) t)
    generalize hf : findRemIdx (fbDebit (j :: rest) t) = fr at hiff ⊢
    cases fr with
    | some idx =>
      simp only [serverUpdate, oSub, Option.map_some', oLeZero, sub_self,
        decide_eq_true_eq, le_refl, if_pos, hf]
      refine ⟨iff_of_true trivial (hiff.mp rfl), fun _ => trivial,
        fun h => absurd h (by simp)⟩
    | none =>
      simp only [serverUpdate, oSub, Option.map_some', oLeZero, sub_self,
        decide_eq_true_eq, le_refl, if_pos, hf]
      refine ⟨?_, fun h => absurd h (by simp), fun _ => ?_⟩
      · constructor
        · intro h
          exact absurd h (by simp)
        · intro hex
          exact absurd (hiff.mpr hex) (by simp)
      · simp [fbRecalc_eq_spec]

/-! ### Measurement accounting lemmas -/

theorem routeOne_stats {sam : Samplers} {M : List (List ℚ)} {σ : MSt} {idx : Nat}
    {σ2 : MSt} (h : routeOne sam M σ idx = Except.ok σ2) :
    σ2.area_n = σ.area_n ∧ σ2.clock = σ.clock ∧ σ2.trace = σ.trace := by
  rw [routeOne] at h
  dsimp only at h
  split at h
  · split at h
    · cases h
      exact ⟨rfl, rfl, rfl⟩
    · split at h
      · cases h
      · cases h
        exact ⟨rfl, rfl, rfl⟩
  · split at h
    · cases h
      exact ⟨rfl, rfl, rfl⟩
    · cases h
      exact ⟨rfl, rfl, rfl⟩

theorem routeAll_stats {sam : Samplers} {M : List (List ℚ)} :
    ∀ {idxs : List Nat} {σ σ2 : MSt}, routeAll sam M idxs σ = Except.ok σ2 →
      σ2.area_n = σ.area_n ∧ σ2.clock = σ.clock ∧ σ2.trace = σ.trace := by
  intro idxs
  induction idxs with
  | nil =>
    intro σ σ2 h
    cases h
    exact ⟨rfl, rfl, rfl⟩
  | cons idx rest ih =>
    intro σ σ2 h
    rw [routeAll] at h
    split at h
    · cases h
    · rename_i σ1 hone
      rcases routeOne_stats hone with ⟨h1, h2, h3⟩
      rcases ih h with ⟨g1, g2, g3⟩
      exact ⟨g1.trans h1, g2.trans h2, g3.trans h3⟩

theorem measStep_stats {sam : Samplers} {M : List (List ℚ)} {σ σ2 : MSt}
    (h : measStep sam M σ = Except.ok σ2) :
    σ2.area_n = σ.area_n + (σ.state : ℚ) * stepDt σ ∧
    σ2.clock = σ.clock + stepDt σ ∧
    σ2.trace = σ.trace ++ [(σ.state, stepDt σ)] := by
  rw [measStep] at h
  dsimp only at h
  split at h
  · cases h
  · rename_i σmid hra
    rcases routeAll_stats hra with ⟨h1, h2, h3⟩
    rw [stepDt]
    split at h
    · cases h
      dsimp only
      refine ⟨?_, ?_, ?_⟩
      · split <;> simpa using h1
      · split <;> simpa using h2
      · split <;> simpa using h3
    · cases h
      exact ⟨by simpa using h1, by simpa using h2, by simpa using h3⟩

theorem traceSum_append (tr : List (Int × Time)) (x : Int × Time) :
    traceSum (tr ++ [x]) = traceSum tr + (x.1 : ℚ) * x.2 := by
  simp [traceSum]

theorem measLoop_area (sam : Samplers) (M : List (List ℚ)) (ne : Nat) :
    ∀ (fuel : Nat) (σ σf : MSt),
      measLoop sam M ne fuel σ = Except.ok (some σf) →
      σ.area_n = traceSum σ.trace → σf.area_n = traceSum σf.trace := by
  intro fuel
  induction fuel with
  | zero =>
    intro σ σf h hinv
    rw [measLoop] at h
    split at h
    · cases h
    · cases h
      exact hinv
  | succ f ih =>
    intro σ σf h hinv
    rw [measLoop] at h
    split at h
    · split at h
      · cases h
      · rename_i σ1 hstep
        rcases measStep_stats hstep with ⟨h1, -, h3⟩
        exact ih σ1 σf h (by rw [h1, h3, traceSum_append, hinv])
    · cases h
      exact hinv

/-! ### C8: returned metrics -/

/-- C8: every completed run of `sim` returns exactly
`(area_n / global_clock, area_n / max(1, num_system_departures))`, where
`area_n` is the Riemann sum accumulated as `state_total · dt` over the
event steps of the measurement phase (the recorded step trace). -/
theorem sim_outputs_littles_law (sam : Samplers) (M : List (List ℚ))
    (sv : List ServerSt) (rng ne : Nat) (sd : Option Nat) (wu : Nat)
    (trt tre : Bool) (fuel : Nat)
    (h : resIsDone (sim sam M sv rng ne sd wu trt tre fuel) = true) :
    resMeanN (sim sam M sv rng ne sd wu trt tre fuel)
        = (resFinal (sim sam M sv rng ne sd wu trt tre fuel)).area_n
            / (resFinal (sim sam M sv rng ne sd wu trt tre fuel)).clock ∧
    resMeanT (sim sam M sv rng ne sd wu trt tre fuel)
        = (resFinal (sim sam M sv rng ne sd wu trt tre fuel)).area_n
            / rmax 1 (((resFinal (sim sam M sv rng ne sd wu trt tre fuel)).num_completions : ℚ)) ∧
    (resFinal (sim sam M sv rng ne sd wu trt tre fuel)).area_n
        = traceSum (resFinal (sim sam M sv rng ne sd wu trt tre fuel)).trace := by
  have key : ∃ σf : MSt, sim sam M sv rng ne sd wu trt tre fuel
      = Except.ok (some (σf, σf.area_n / σf.clock,
          σf.area_n / rmax 1 ((σf.num_completions : ℚ))))
      ∧ σf.area_n = traceSum σf.trace := by
    rw [sim.eq_def] at h
    dsimp only at h
    split at h
    · rename_i hv
      split at h
      · simp [resIsDone] at h
      · rename_i w hw
        split at h
        · simp [resIsDone] at h
        · simp [resIsDone] at h
        · rename_i σf hml
          refine ⟨σf, ?_, measLoop_area sam M ne fuel _ σf hml rfl⟩
          rw [sim.eq_def]
          dsimp only
          rw [if_pos hv, hw]
          dsimp only
          rw [hml]
    · simp [resIsDone] at h
  rcases key with ⟨σf, heq, harea⟩
  rw [heq]
  exact ⟨rfl, rfl, harea⟩

/-! ### Per-station counter lemmas -/

theorem notMultiFCFS_iff (s : ServerSt) : notMultiFCFS s ↔ polTag s.pol ≠ 1 := by
  obtain ⟨ns, bc, ck, ttnc, T, nc, st, nr, na, lrt, pol⟩ := s
  cases pol <;> simp [notMultiFCFS, polTag]

theorem serverArrival_counters (sam : Samplers) (i : Nat) (s : ServerSt) (rng : Nat) :
    ((serverArrival sam i s rng).1).num_arrivals = s.num_arrivals ∧
    ((serverArrival sam i s rng).1).num_rejected = s.num_rejected ∧
    ((serverArrival sam i s rng).1).num_completions = s.num_completions ∧
    ((serverArrival sam i s rng).1).state = s.state + 1 := by
  obtain ⟨ns, bc, ck, ttnc, T, nc, st, nr, na, lrt, pol⟩ := s
  cases pol <;> simp only [serverArrival] <;>
    first
      | simp
      | (split_ifs <;> simp)

theorem serverUpdate_counters (sam : Samplers) (i : Nat) (s : ServerSt) (dt : Time)
    (rng : Nat) (hk : notMultiFCFS s) :
    ((serverUpdate sam i s dt rng).1.2).num_arrivals = s.num_arrivals ∧
    ((serverUpdate sam i s dt rng).1.2).num_rejected = s.num_rejected ∧
    ((serverUpdate sam i s dt rng).1.1 = true →
      ((serverUpdate sam i s dt rng).1.2).num_completions = s.num_completions + 1 ∧
      ((serverUpdate sam i s dt rng).1.2).state = s.state - 1) ∧
    ((serverUpdate sam i s dt rng).1.1 = false →
      ((serverUpdate sam i s dt rng).1.2).num_completions = s.num_completions ∧
      ((serverUpdate sam i s dt rng).1.2).state = s.state) := by
  obtain ⟨ns, bc, ck, ttnc, T, nc, st, nr, na, lrt, pol⟩ := s
  cases pol with
  | fcfsk ch wq => exact absurd hk (by simp [notMultiFCFS])
  | base ats =>
      simp only [serverUpdate]
      split_ifs <;> simp
  | ps rem ja =>
      simp only [serverUpdate]
      split_ifs <;> simp
  | fb jobs =>
      cases jobs with
      | nil => simp [serverUpdate]
      | cons j rest =>
          simp only [serverUpdate]
          split_ifs
          · cases hf : findRemIdx (fbDebit (j :: rest) dt) <;> simp [hf]
          · simp
  | srpt jobs ra =>
      simp only [serverUpdate]
      split_ifs <;> simp

/-- The engine always increments `num_arrivals` immediately before calling
`arrival()` on a station; the combination preserves flow conservation. -/
theorem serverArrival_bumped_flow (sam : Samplers) (i : Nat) (s : ServerSt) (rng : Nat)
    (h : notMultiFCFS s ∧ flowGe s) :
    notMultiFCFS ((serverArrival sam i
        { s with num_arrivals := s.num_arrivals + 1 } rng).1) ∧
    flowGe ((serverArrival sam i
        { s with num_arrivals := s.num_arrivals + 1 } rng).1) := by
  rcases serverArrival_counters sam i { s with num_arrivals := s.num_arrivals + 1 } rng
    with ⟨h1, h2, h3, h4⟩
  constructor
  · rw [notMultiFCFS_iff, polTag_arrival]
    exact (notMultiFCFS_iff s).mp h.1
  · have hf := h.2
    rw [flowGe] at hf
    rw [flowGe, h1, h2, h3, h4]
    dsimp only
    omega

theorem serverUpdate_flow (sam : Samplers) (i : Nat) (s : ServerSt) (dt : Time)
    (rng : Nat) (h : notMultiFCFS s ∧ flowGe s) :
    notMultiFCFS ((serverUpdate sam i s dt rng).1.2) ∧
    flowGe ((serverUpdate sam i s dt rng).1.2) := by
  rcases serverUpdate_counters sam i s dt rng h.1 with ⟨h1, h2, h3, h4⟩
  constructor
  · rw [notMultiFCFS_iff, polTag_update]
    exact (notMultiFCFS_iff s).mp h.1
  · have hf := h.2
    rw [flowGe] at hf
    cases hb : (serverUpdate sam i s dt rng).1.1 with
    | true =>
        rcases h3 hb with ⟨g1, g2⟩
        rw [flowGe, h1, h2, g1, g2]
        omega
    | false =>
        rcases h4 hb with ⟨g1, g2⟩
        rw [flowGe, h1, h2, g1, g2]
        omega

theorem flowAt_set {l : List ServerSt} {j : Nat} {a : ServerSt}
    (ha : flowAt l j → notMultiFCFS a ∧ flowGe a) :
    ∀ i, flowAt l i → flowAt (l.set j a) i := by
  intro i hi
  by_cases hij : i = j
  · subst hij
    by_cases hlen : i < l.length
    · have hg : (l.set i a).getD i default = a := by
        rw [List.getD_eq_getElem?_getD, List.getElem?_set_self hlen]
        rfl
      rw [flowAt, hg] at *
      exact ha hi
    · rw [List.set_eq_of_length_le (le_of_not_lt hlen)]
      exact hi
  · have hg : (l.set j a).getD i default = l.getD i default := by
      rw [List.getD_eq_getElem?_getD, List.getElem?_set_ne (fun hji => hij hji.symm),
        ← List.getD_eq_getElem?_getD]
    rw [flowAt, hg]
    exact hi

theorem updateAll_flowAt (sam : Samplers) (dt : Time) :
    ∀ (servers : List ServerSt) (i0 rng : Nat) (i : Nat),
      flowAt servers i → flowAt (updateAll sam dt servers i0 rng).1 i := by
  intro servers
  induction servers with
  | nil =>
    intro i0 rng i hi
    rw [updateAll]
    exact hi
  | cons s rest ih =>
    intro i0 rng i hi
    rw [updateAll]
    dsimp only
    cases i with
    | zero =>
        simp only [flowAt, List.getD_cons_zero] at hi ⊢
        exact serverUpdate_flow sam i0 s dt rng hi
    | succ n =>
        simp only [flowAt, List.getD_cons_succ] at hi ⊢
        exact ih (i0 + 1) _ n hi

/-! ### C5 (amended): per-station flow conservation -/

theorem routeOne_flow {sam : Samplers} {M : List (List ℚ)} {σ : MSt} {idx : Nat}
    {σ2 : MSt} (h : routeOne sam M σ idx = Except.ok σ2) (i : Nat)
    (hi : flowAt σ.servers i) : flowAt σ2.servers i := by
  rw [routeOne] at h
  dsimp only at h
  split at h
  · split at h
    · cases h
      exact hi
    · split at h
      · cases h
      · cases h
        exact hi
  · split at h
    · cases h
      dsimp only
      refine flowAt_set (fun hd => ?_) i hi
      constructor
      · rw [notMultiFCFS_iff]
        have := (notMultiFCFS_iff _).mp hd.1
        simpa using this
      · have hf := hd.2
        rw [flowGe] at hf ⊢
        dsimp only
        omega
    · cases h
      dsimp only
      refine flowAt_set (fun hd => ?_) i hi
      exact serverArrival_bumped_flow sam _ _ _ hd

theorem routeAll_flow {sam : Samplers} {M : List (List ℚ)} :
    ∀ {idxs : List Nat} {σ σ2 : MSt}, routeAll sam M idxs σ = Except.ok σ2 →
      ∀ i, flowAt σ.servers i → flowAt σ2.servers i := by
  intro idxs
  induction idxs with
  | nil =>
    intro σ σ2 h i hi
    cases h
    exact hi
  | cons idx rest ih =>
    intro σ σ2 h i hi
    rw [routeAll] at h
    split at h
    · cases h
    · rename_i σ1 hone
      exact ih h i (routeOne_flow hone i hi)

theorem measStep_flow {sam : Samplers} {M : List (List ℚ)} {σ σ2 : MSt}
    (h : measStep sam M σ = Except.ok σ2) (i : Nat)
    (hi : flowAt σ.servers i) : flowAt σ2.servers i := by
  rw [measStep] at h
  dsimp only at h
  split at h
  · cases h
  · rename_i σmid hra
    have hmid : flowAt σmid.servers i := by
      refine routeAll_flow hra i ?_
      dsimp only
      exact updateAll_flowAt sam _ σ.servers 0 σ.rng i hi
    split at h
    · cases h
      dsimp only
      split
      · dsimp only
        refine flowAt_set (fun hd => ?_) i hmid
        constructor
        · rw [notMultiFCFS_iff]
          have := (notMultiFCFS_iff _).mp hd.1
          simpa using this
        · have hf := hd.2
          rw [flowGe] at hf ⊢
          dsimp only
          omega
      · dsimp only
        refine flowAt_set (fun hd => ?_) i hmid
        exact serverArrival_bumped_flow sam 0 _ _ hd
    · cases h
      exact hmid

theorem measLoop_flow (sam : Samplers) (M : List (List ℚ)) (ne : Nat) :
    ∀ (fuel : Nat) (σ σf : MSt),
      measLoop sam M ne fuel σ = Except.ok (some σf) →
      ∀ i, flowAt σ.servers i → flowAt σf.servers i := by
  intro fuel
  induction fuel with
  | zero =>
    intro σ σf h i hi
    rw [measLoop] at h
    split at h
    · cases h
    · cases h
      exact hi
  | succ f ih =>
    intro σ σf h i hi
    rw [measLoop] at h
    split at h
    · split at h
      · cases h
      · rename_i σ1 hstep
        exact ih σ1 σf h i (measStep_flow hstep i hi)
    · cases h
      exact hi

/-- C5 (amended): per-station flow conservation.  The station produced
by `reset()` followed by the post-warmup counter zeroing satisfies
`num_arrivals ≥ num_completions + num_rejected + state`, and in the
measurement phase of a run started with `warmup = 0` the invariant holds
at every event boundary at every station index `i` whose station is not
multi-server FCFS — with no assumption on the other stations, so mixed
topologies are covered.  (The original claim fails for `warmup > 0`
because the post-warmup reset zeroes only `num_arrivals`/`num_rejected`,
and at multi-server FCFS stations because wait-queue promotion
double-counts `state`; the counterexample exhibits both.) -/
theorem flow_conservation_amended (sam : Samplers) (M : List (List ℚ)) (ne : Nat)
    (σ : MSt) (fuel : Nat) (s0 : ServerSt) (i : Nat) :
    flowGe (clearArrRej (resetServer s0)) ∧
    (notMultiFCFS (σ.servers.getD i default) ∧ flowGe (σ.servers.getD i default) →
      (∀ σ2, measStep sam M σ = Except.ok σ2 →
        flowGe (σ2.servers.getD i default)) ∧
      (∀ σf, measLoop sam M ne fuel σ = Except.ok (some σf) →
        flowGe (σf.servers.getD i default))) := by
  refine ⟨?_, fun hall => ⟨?_, ?_⟩⟩
  · simp [flowGe, clearArrRej, resetServer]
  · intro σ2 h
    exact (measStep_flow h i hall).2
  · intro σf h
    exact (measLoop_flow sam M ne fuel σ σf h i hall).2

/-! ### C3 (amended): transition-matrix validation -/

/-- C3 (amended): for a non-empty transition matrix, `sim` raises a
validation error before running the event loop exactly when the matrix
has the wrong shape (not `n` rows of length `n+1`) or some row's sum
differs from 1 by more than `1e-9`; negative entries are not themselves
checked (a row containing one still passes when it sums to 1, see the
counterexample). -/
theorem verify_matrix_amended (sam : Samplers) (M : List (List ℚ))
    (sv : List ServerSt) (rng ne wu fuel : Nat) (sd : Option Nat) (trt tre : Bool) :
    (verifyTransitionMatrix M sv.length = false ↔
      M ≠ [] ∧ (M.length ≠ sv.length ∨ (∃ row ∈ M, row.length ≠ sv.length + 1) ∨
        ∃ row ∈ M, ¬(rabs (row.sum - 1) ≤ 1 / 10 ^ 9))) ∧
    (verifyTransitionMatrix M sv.length = false →
      sim sam M sv rng ne sd wu trt tre fuel = Except.error PyErr.valueError) := by
  constructor
  · rw [verifyTransitionMatrix]
    split_ifs with h1 h2
    · simp only [List.isEmpty_iff] at h1
      simp [h1]
    · have hne : M ≠ [] := by
        intro hM
        rw [hM] at h1
        simp [List.isEmpty_iff] at h1
      simp only [Bool.or_eq_true, decide_eq_true_eq, List.any_eq_true] at h2
      constructor
      · intro _
        refine ⟨hne, ?_⟩
        rcases h2 with h | h
        · exact Or.inl h
        · rcases h with ⟨row, hr, hb⟩
          exact Or.inr (Or.inl ⟨row, hr, by simpa using hb⟩)
      · intro _
        rfl
    · have hne : M ≠ [] := by
        intro hM
        rw [hM] at h1
        simp [List.isEmpty_iff] at h1
      simp only [Bool.or_eq_true, decide_eq_true_eq, List.any_eq_true, not_or,
        not_exists] at h2
      obtain ⟨hlen, hrows⟩ := h2
      constructor
      · intro hall
        rw [Bool.eq_false_iff] at hall
        simp only [ne_eq, List.all_eq_true, decide_eq_true_eq, not_forall] at hall
        obtain ⟨row, hr, hb⟩ := hall
        exact ⟨hne, Or.inr (Or.inr ⟨row, hr, hb⟩)⟩
      · rintro ⟨-, h | h | h⟩
        · exact absurd h hlen
        · obtain ⟨row, hr, hb⟩ := h
          have := hrows row
          simp only [not_and] at this
          exact absurd hb (by simpa using this hr)
        · obtain ⟨row, hr, hb⟩ := h
          rw [Bool.eq_false_iff]
          simp only [ne_eq, List.all_eq_true, decide_eq_true_eq, not_forall]
          exact ⟨row, hr, hb⟩
  · intro h
    rw [sim.eq_def]
    dsimp only
    rw [if_neg (by simp [h])]

/-! ### Witnesses -/

theorem route_job_spec_witness :
    (routeJob [[(1 : ℚ) / 2, 1 / 2]] constSam 1 0 0).2 = (constSam.uniform 0).2 ∧
    (constSam.uniform 0).1
        < ((([[(1 : ℚ) / 2, 1 / 2]] : List (List ℚ)).getD 0 []).take
            ((routeJob [[(1 : ℚ) / 2, 1 / 2]] constSam 1 0 0).1 + 1)).sum ∧
    ∀ k < (routeJob [[(1 : ℚ) / 2, 1 / 2]] constSam 1 0 0).1,
      ((([[(1 : ℚ) / 2, 1 / 2]] : List (List ℚ)).getD 0 []).take (k + 1)).sum
        ≤ (constSam.uniform 0).1 := by
  have h := route_job_spec [[(1 : ℚ) / 2, 1 / 2]] constSam 1 0 0
  have h2 := h.2 (by simp)
  have h3 := h2.2 (by norm_num [constSam]) (by norm_num [constSam])
  exact ⟨h2.1, h3.1, h3.2⟩

theorem sim_two_run_deterministic_witness :
    sim constSam [] [fcfs1Station] 0 2 (some 42) 0 true false 5
      = sim constSam [] [dirtyStation] 7 2 (some 42) 0 true false 5 :=
  sim_two_run_deterministic constSam [] [fcfs1Station] [dirtyStation] 0 7 2 42 0
    true false 5 rfl

theorem srpt_min_remaining_invariant_witness :
    srptInv (resetServer srptStation) ∧
    srptInv (serverArrival constSam 0 srptStation 0).1 ∧
    srptInv ((serverUpdate constSam 0 srptStation 1 0).1.2) := by
  have h := srpt_min_remaining_invariant constSam 0 srptStation 0 1
    (by simp [srptStation, fcfs1Station, srptInv])
  exact ⟨h.1, h.2.1, h.2.2 (by norm_num)⟩

theorem fb_update_at_ttnc_witness :
    (((serverUpdate constSam 0 fbOneJobStation 1 0).1.1 = true) ↔
      ∃ j ∈ fbDebit [((1 : ℚ), (0 : ℚ), (0 : ℚ))] 1, j.1 ≤ fbEps) ∧
    ((serverUpdate constSam 0 fbOneJobStation 1 0).1.1 = true →
      ((serverUpdate constSam 0 fbOneJobStation 1 0).1.2).num_completions
        = fbOneJobStation.num_completions + 1) ∧
    ((serverUpdate constSam 0 fbOneJobStation 1 0).1.1 = false →
      ((serverUpdate constSam 0 fbOneJobStation 1 0).1.2).num_completions
        = fbOneJobStation.num_completions ∧
      ((serverUpdate constSam 0 fbOneJobStation 1 0).1.2).TTNC
        = fbSpecTTNC (fbDebit [((1 : ℚ), (0 : ℚ), (0 : ℚ))] 1)) :=
  fb_update_at_ttnc constSam 0 fbOneJobStation [(1, 0, 0)] 1 0 rfl (by simp) rfl

theorem sim_outputs_littles_law_witness :
    resMeanN (sim constSam [] [srptStation] 0 1 (some 42) 0 true false 3)
        = (resFinal (sim constSam [] [srptStation] 0 1 (some 42) 0 true false 3)).area_n
            / (resFinal (sim constSam [] [srptStation] 0 1 (some 42) 0 true false 3)).clock ∧
    resMeanT (sim constSam [] [srptStation] 0 1 (some 42) 0 true false 3)
        = (resFinal (sim constSam [] [srptStation] 0 1 (some 42) 0 true false 3)).area_n
            / rmax 1 (((resFinal (sim constSam [] [srptStation] 0 1 (some 42) 0 true false 3)).num_completions : ℚ)) ∧
    (resFinal (sim constSam [] [srptStation] 0 1 (some 42) 0 true false 3)).area_n
        = traceSum (resFinal (sim constSam [] [srptStation] 0 1 (some 42) 0 true false 3)).trace :=
  sim_outputs_littles_law constSam [] [srptStation] 0 1 (some 42) 0 true false 3
    (by norm_num [sim, warmLoop, warmStep, warmRouteAll, warmRouteOne, measLoop, measStep,
      routeAll, routeOne, updateAll, serverUpdate, serverArrival, minTTNC, oMin, oSub,
      oLeZero, rmin, rmax, rabs, qMin, isFull, resetServer, clearArrRej, routeJob,
      logAppend, fcfskRecalc, psRecalc, fbRecalc, fbDebit, fbEps, findRemIdx, argminIdx,
      popMin, lexMin, pairLtB, routeScan, verifyTransitionMatrix, constSam,
      srptStation, fcfs1Station, resIsDone])

theorem verify_matrix_amended_witness :
    sim constSam [[(1 : ℚ), 1]] [fcfs1Station] 0 1 (some 0) 0 false false 2
      = Except.error PyErr.valueError :=
  (verify_matrix_amended constSam [[(1 : ℚ), 1]] [fcfs1Station] 0 1 0 2 (some 0)
      false false).2
    (by norm_num [verifyTransitionMatrix, rabs])

theorem flow_conservation_amended_witness :
    flowGe (clearArrRej (resetServer fcfs1Station)) ∧
    ((notMultiFCFS (mstInit.servers.getD 0 default) ∧
        flowGe (mstInit.servers.getD 0 default)) ∧
      (∀ σ2, measStep constSam [] mstInit = Except.ok σ2 →
        flowGe (σ2.servers.getD 0 default)) ∧
      (∀ σf, measLoop constSam [] 1 3 mstInit = Except.ok (some σf) →
        flowGe (σf.servers.getD 0 default))) := by
  have hstation : notMultiFCFS (mstInit.servers.getD 0 default) ∧
      flowGe (mstInit.servers.getD 0 default) := by
    constructor
    · simp [mstInit, List.getD, notMultiFCFS, fcfs1Station]
    · simp [mstInit, List.getD, flowGe, fcfs1Station]
  have h := flow_conservation_amended constSam [] 1 mstInit 3 fcfs1Station 0
  exact ⟨h.1, hstation, h.2 hstation⟩

end QueueSim
